import Mathlib

/-!
Verification of the OCT signal-processing core (`modules/signal_processing_hamasaki.py`
and `modules/signal_processor.py`).

The numeric pipeline is shallowly embedded over `ℚ` (exact arithmetic) for the
structural/algebraic claims, and over an IEEE-style value type `FVal`
(finite / +inf / -inf / NaN) for the claims about division-by-zero and
infinity handling.  Library calls that compute transcendental values
(`np.sin`, `math.log10`, `scipy.interpolate.interp1d`) are modelled as
function parameters, since their outputs are opaque data to the pipeline:
every claim is stated for all such functions (or refuted at values the real
functions can attain).
-/

set_option autoImplicit false

namespace OCT

/-- Model of `np.amax` on a rational vector (maximum element; the empty case,
which raises in numpy, defaults to 0 and is excluded by hypotheses). -/
def amax : List ℚ → ℚ
  | [] => 0
  | x :: xs => xs.foldl max x

/-- Model of `np.amin` on a rational vector. -/
def amin : List ℚ → ℚ
  | [] => 0
  | x :: xs => xs.foldl min x

/-- Model of `np.linspace(a, b, num)`: `num` evenly spaced samples from `a`
to `b` inclusive (`num = 1` gives `[a]`, `num = 0` gives `[]`). -/
def linspace (a b : ℚ) (num : ℕ) : List ℚ :=
  if num = 0 then []
  else if num = 1 then [a]
  else (List.range num).map (fun (i : ℕ) => a + (b - a) * (i : ℚ) / ((num - 1 : ℕ) : ℚ))

/-- Elementwise vector addition (numpy `+=` on same-shape arrays). -/
def vadd (v w : List ℚ) : List ℚ := List.zipWith (· + ·) v w

/-- First index whose axis value is `≥ target`; models the Python idiom
`for i in range(len(axis)): if axis[i] >= target: index = i; break`
(`none` means the loop fell through and `index` stayed unbound). -/
def firstIdxGe (target : ℚ) : List ℚ → Option ℕ
  | [] => none
  | v :: rest => if target ≤ v then some 0 else (firstIdxGe target rest).map (· + 1)

/-- State of a `SignalProcessorHamasaki` instance
(`modules/signal_processing_hamasaki.py`): the precomputed sinusoid matrix
`self.__freq_dataset`, the depth resolution `self.__res` (= length of
`self.__depth`), and the cached resampled reference `self.__ref`
(`none` models Python's `None`). -/
structure HEngine where
  freqDataset : List (List ℚ)
  res : ℕ
  ref : Option (List ℚ)
deriving DecidableEq

namespace SPHamasaki

/-- `SignalProcessorHamasaki.set_reference` of `signal_processing_hamasaki.py`:
`self.__ref = self.resample(reference)`.  `rs` is the engine's resampling map
`interpolate.interp1d(self.__freq, ·, kind='cubic')(self.__freq_fixed)`,
abstracted as a function parameter. -/
def set_reference (rs : List ℚ → List ℚ) (e : HEngine) (reference : List ℚ) : HEngine :=
  { e with ref := some (rs reference) }

/-- `SignalProcessorHamasaki.remove_background` of
`signal_processing_hamasaki.py`:
`spectra - np.multiply(self.__ref, np.amax(spectra)/np.amax(self.__ref))`,
with the cached reference passed explicitly. -/
def remove_background (ref spectra : List ℚ) : List ℚ :=
  List.zipWith (fun s r => s - r * (amax spectra / amax ref)) spectra ref

/-- The signed sine-sum of `SignalProcessorHamasaki.apply_inverse_ft`
before normalization:
`result = np.zeros_like(self.__depth); for i in range(len(spectra)):
result += spectra[i]*self.__freq_dataset[i]`. -/
def rawSum (e : HEngine) (spectra : List ℚ) : List ℚ :=
  (List.zipWith (fun c row => row.map (fun x => c * x)) spectra e.freqDataset).foldl
    vadd (List.replicate e.res 0)

/-- `SignalProcessorHamasaki.apply_inverse_ft` of
`signal_processing_hamasaki.py`: the sine-sum, then `result /= np.amax(result)`,
then `abs(result)`. -/
def apply_inverse_ft (e : HEngine) (spectra : List ℚ) : List ℚ :=
  let result := rawSum e spectra
  (result.map (fun x => x / amax result)).map (fun x => |x|)

/-- `SignalProcessorHamasaki.generate_ascan` of `signal_processing_hamasaki.py`:
lazily sets the reference when `self.__ref is None`, then
resample → remove_background → apply_inverse_ft.  Returns the updated engine
state together with the A-scan. -/
def generate_ascan (rs : List ℚ → List ℚ) (e : HEngine)
    (interference reference : List ℚ) : HEngine × List ℚ :=
  let e1 := if e.ref.isNone then set_reference rs e reference else e
  let itf := rs interference
  let rmv := remove_background (e1.ref.getD []) itf
  (e1, apply_inverse_ft e1 rmv)

/-- `SignalProcessorHamasaki.generate_bscan` of `signal_processing_hamasaki.py`:
`for i in range(len(interference)): bscan[i] = self.generate_ascan(interference[i], reference)`,
with the engine state threaded through the sequential loop. -/
def generate_bscan (rs : List ℚ → List ℚ) (e : HEngine)
    (interference : List (List ℚ)) (reference : List ℚ) : HEngine × List (List ℚ) :=
  match interference with
  | [] => (e, [])
  | itf :: rest =>
    let p := generate_ascan rs e itf reference
    let q := generate_bscan rs p.1 rest reference
    (q.1, p.2 :: q.2)

/-- Sequential run of `generate_ascan` over a list of
(interference, reference) argument pairs on one engine instance. -/
def run_ascans (rs : List ℚ → List ℚ) (e : HEngine) :
    List (List ℚ × List ℚ) → HEngine × List (List ℚ)
  | [] => (e, [])
  | c :: rest =>
    let p := generate_ascan rs e c.1 c.2
    let q := run_ascans rs p.1 rest
    (q.1, p.2 :: q.2)

/-- One X-Y plane of a C-scan at depth index `idx`:
`result[i][j] = cscan[i][j][idx]` (mode `'xy'` of `analyze_cscan`). -/
def xyPlane (cscan : List (List (List ℚ))) (idx : ℕ) : List (List ℚ) :=
  cscan.map (fun b => b.map (fun a => a.getD idx 0))

/-- `SignalProcessorHamasaki.analyze_cscan` of `signal_processing_hamasaki.py`.
`Except.error` models an uncaught Python exception, `Except.ok none` models
the `result = None` fallthrough for missing parameters or unsupported modes.
Faithfulness notes: in the source, for modes `'xd'`/`'yd'` the axis `y_axis`
is assigned only in the in-range branch, yet the selection loop
`for i in range(len(y_axis))` runs unconditionally, so the out-of-range
branch (which sets `index = 0` and prints the fallback message) crashes with
`UnboundLocalError`; likewise `index` stays unbound when no axis value
reaches `target`.  For mode `'xy'` the source sets `index = 0` in the
out-of-range branch before the loop, which overwrites it if it finds a hit;
this is modelled by consulting the loop result first. -/
def analyze_cscan (cscan : List (List (List ℚ))) (target : ℚ) (mode : String)
    (y_max : Option ℚ) (depth : Option (List ℚ)) :
    Except String (Option (List (List ℚ))) :=
  if mode = "xd" ∨ mode = "yd" then
    match y_max with
    | none => .ok none
    | some ym =>
      if ym < target ∨ 0 > target then
        .error "UnboundLocalError: y_axis referenced before assignment"
      else
        let y_axis := if mode = "xd" then linspace 0 ym cscan.length
                      else linspace 0 ym (cscan.headD []).length
        match firstIdxGe target y_axis with
        | none => .error "UnboundLocalError: index referenced before assignment"
        | some index =>
          if mode = "xd" then .ok (some (cscan.getD index []))
          else .ok (some (cscan.map (fun b => b.getD index [])))
  else if mode = "xy" then
    match depth with
    | none => .ok none
    | some d =>
      match firstIdxGe target d with
      | some index => .ok (some (xyPlane cscan index))
      | none =>
        if amax d < target ∨ amin d > target then .ok (some (xyPlane cscan 0))
        else .error "UnboundLocalError: index referenced before assignment"
  else .ok none

end SPHamasaki

namespace SignalProcessor

/-- `SignalProcessor.remove_background` of `modules/signal_processor.py`
(Engine A): `spectra - self.__ref_fix`, a plain difference with no
energy-matching rescaling. -/
def remove_background (refFix spectra : List ℚ) : List ℚ :=
  List.zipWith (fun s r => s - r) spectra refFix

end SignalProcessor

/-- IEEE-754-style value for the claims about numpy's division-by-zero and
infinity behaviour: a finite rational, `+inf`, `-inf`, or NaN.
(Negative zero is identified with zero; none of the modelled operations
distinguish them observably here.) -/
inductive FVal where
  | fin (q : ℚ)
  | inf
  | ninf
  | nan
deriving DecidableEq

namespace FVal

/-- Model of `np.isinf` on one element. -/
def isinf : FVal → Bool
  | inf => true
  | ninf => true
  | _ => false

/-- Model of `np.isnan` on one element. -/
def isnan : FVal → Bool
  | nan => true
  | _ => false

/-- IEEE multiplication (`0 * inf = nan`, signs propagate, NaN absorbs). -/
def fmul : FVal → FVal → FVal
  | nan, _ => nan
  | _, nan => nan
  | inf, inf => inf
  | inf, ninf => ninf
  | ninf, inf => ninf
  | ninf, ninf => inf
  | inf, fin b => if 0 < b then inf else if b < 0 then ninf else nan
  | fin a, inf => if 0 < a then inf else if a < 0 then ninf else nan
  | ninf, fin b => if 0 < b then ninf else if b < 0 then inf else nan
  | fin a, ninf => if 0 < a then ninf else if a < 0 then inf else nan
  | fin a, fin b => fin (a * b)

/-- IEEE subtraction (`inf - inf = nan`, NaN absorbs). -/
def fsub : FVal → FVal → FVal
  | nan, _ => nan
  | _, nan => nan
  | inf, inf => nan
  | inf, _ => inf
  | ninf, ninf => nan
  | ninf, _ => ninf
  | fin _, inf => ninf
  | fin _, ninf => inf
  | fin a, fin b => fin (a - b)

/-- IEEE division as numpy performs it (`x/0` gives a signed infinity with a
warning, `0/0` gives NaN, `x/inf = 0`, NaN absorbs). -/
def fdiv : FVal → FVal → FVal
  | nan, _ => nan
  | _, nan => nan
  | inf, inf => nan
  | inf, ninf => nan
  | ninf, inf => nan
  | ninf, ninf => nan
  | inf, fin b => if 0 ≤ b then inf else ninf
  | ninf, fin b => if 0 ≤ b then ninf else inf
  | fin _, inf => fin 0
  | fin _, ninf => fin 0
  | fin a, fin b => if b ≠ 0 then fin (a / b) else if 0 < a then inf else if a < 0 then ninf else nan

/-- Pairwise maximum as in numpy's `maximum` reduction: NaN propagates,
`+inf` dominates. -/
def fmax2 : FVal → FVal → FVal
  | nan, _ => nan
  | _, nan => nan
  | inf, _ => inf
  | _, inf => inf
  | ninf, b => b
  | a, ninf => a
  | fin a, fin b => fin (max a b)

/-- Model of `np.log10` elementwise, with the finite positive case delegated
to the parameter `lg` (the real base-10 logarithm is transcendental; every
claim holds for all `lg` agreeing with it on the inputs used). -/
def flog10 (lg : ℚ → ℚ) : FVal → FVal
  | nan => nan
  | inf => inf
  | ninf => nan
  | fin q => if 0 < q then fin (lg q) else if q = 0 then ninf else nan

end FVal

/-- Model of `np.amax` on an `FVal` vector (NaN-propagating maximum). -/
def famax : List FVal → FVal
  | [] => FVal.fin 0
  | x :: xs => xs.foldl FVal.fmax2 x

namespace SPHamasaki

/-- `SignalProcessorHamasaki.remove_background` under IEEE float semantics:
`spectra - np.multiply(self.__ref, np.amax(spectra)/np.amax(self.__ref))`.
The source performs no per-element infinity/NaN replacement here. -/
def remove_backgroundF (ref spectra : List FVal) : List FVal :=
  let k := FVal.fdiv (famax spectra) (famax ref)
  List.zipWith (fun s r => FVal.fsub s (FVal.fmul r k)) spectra ref

end SPHamasaki

/-- Module-level `calculate_absorbance` of `signal_processing_hamasaki.py`:
`absorbance = np.log10(reflection/incidence)*(-1)` computed under
`np.errstate(divide='ignore', invalid='ignore')`, followed by the loop
`if np.isinf(absorbance[i]): absorbance[i] = np.nan`. -/
def calculate_absorbance (lg : ℚ → ℚ) (reflection incidence : List FVal) : List FVal :=
  let absorbance := List.zipWith
    (fun r i => FVal.fmul (FVal.flog10 lg (FVal.fdiv r i)) (FVal.fin (-1)))
    reflection incidence
  absorbance.map (fun a => if a.isinf then FVal.nan else a)

/-- Module-level `calculate_absorbance_2d` of `signal_processing_hamasaki.py`:
`absorbance_2d[i] = calculate_absorbance(reflection[i], incidence)` row by row. -/
def calculate_absorbance_2d (lg : ℚ → ℚ) (reflection : List (List FVal))
    (incidence : List FVal) : List (List FVal) :=
  reflection.map (fun row => calculate_absorbance lg row incidence)

/-- The method `SignalProcessorHamasaki.calculate_absorbance_2d` of
`signal_processing_hamasaki.py`.  Its body runs
`np.zeros((len(reflection), len(self.__inc)))` (a `TypeError` when the cached
incidence is still `None`) and then calls `self.calculate_absorbance(reflection[i])`
with the required positional argument `incidence` missing, which raises
`TypeError` on the first loop iteration; only an empty `reflection`
collection returns (an empty matrix). -/
def method_calculate_absorbance_2d (inc : Option (List FVal))
    (reflection : List (List FVal)) : Except String (List (List FVal)) :=
  match inc with
  | none => .error "TypeError: object of type NoneType has no len()"
  | some _ =>
    match reflection with
    | [] => .ok []
    | _ :: _ => .error "TypeError: calculate_absorbance() missing 1 required positional argument"

/-! Constructor-derived axes shared by the two Engine B implementations
(`SignalProcessorHamasaki.__init__` in `signal_processing_hamasaki.py` and in
`signal_processor.py`), for the refinement claim. -/

/-- Speed of light `c = 2.99792458e8` [m/sec] (exact in float and in `ℚ`). -/
def lightSpeed : ℚ := 299792458

/-- `self.__freq = (c/(wavelength*1e9))*1e6`. -/
def freqAxis (wl : List ℚ) : List ℚ :=
  wl.map (fun w => lightSpeed / (w * 1000000000) * 1000000)

/-- `int(len(wavelength) * signal_length)`, the resampled sample count. -/
def sampleCount (wl : List ℚ) (sl : ℚ) : ℕ :=
  (⌊(wl.length : ℚ) * sl⌋).toNat

/-- `self.__freq_fixed = np.linspace(np.amin(freq), np.amax(freq), int(len(wl)*signal_length))`. -/
def freqFixedAxis (wl : List ℚ) (sl : ℚ) : List ℚ :=
  linspace (amin (freqAxis wl)) (amax (freqAxis wl)) (sampleCount wl sl)

/-- `self.__depth = np.linspace(0, depth_max, res)` (`res` is the `resolution`
parameter in `signal_processing_hamasaki.py` and the literal `int(200)` in
`signal_processor.py`). -/
def depthAxis (dmax : ℚ) (res : ℕ) : List ℚ :=
  linspace 0 dmax res

/-- `self.__time = 2*(n*self.__depth*1e-3)/c`. -/
def timeAxis (n dmax : ℚ) (res : ℕ) : List ℚ :=
  (depthAxis dmax res).map (fun d => 2 * (n * d * (1 / 1000)) / lightSpeed)

namespace SPHamasaki

/-- `SignalProcessorHamasaki.__prepare_sinusoid` of
`signal_processing_hamasaki.py`:
`freq_dataset[i] = np.sin(2*np.pi*self.__time*self.__freq_fixed[i]*1e12)`.
`sinf` models `np.sin` and `pi0` models the float constant `np.pi`. -/
def prepare_sinusoid (sinf : ℚ → ℚ) (pi0 : ℚ) (time freqF : List ℚ) : List (List ℚ) :=
  freqF.map (fun f => time.map (fun t => sinf (2 * pi0 * t * f * 1000000000000)))

/-- The engine of `signal_processing_hamasaki.py` as built by its
constructor from wavelength axis, refractive index, maximum depth,
resolution and signal length. -/
def mkEngine (sinf : ℚ → ℚ) (pi0 : ℚ) (wl : List ℚ) (n dmax : ℚ)
    (res : ℕ) (sl : ℚ) : HEngine :=
  { freqDataset := prepare_sinusoid sinf pi0 (timeAxis n dmax res) (freqFixedAxis wl sl)
    res := res
    ref := none }

end SPHamasaki

namespace SPHamasaki2

/-- `SignalProcessorHamasaki.apply_inverse_ft` of `modules/signal_processor.py`:
the loop `for i in range(len(self.__freq_fixed))` computes the sine rows
inline, initializing `result` at `i == 0` and accumulating afterwards, then
`result /= np.amax(result); return abs(result)`.  `none` models the
`NameError` on an empty frequency axis (`result` never initialized) and the
`IndexError` when `spectra` is shorter than the frequency axis. -/
def apply_inverse_ft (sinf : ℚ → ℚ) (pi0 : ℚ) (time freqF spectra : List ℚ) :
    Option (List ℚ) :=
  match freqF, spectra with
  | f0 :: fs, s0 :: ss =>
    if ss.length < fs.length then none
    else
      let row := fun (f : ℚ) => time.map (fun t => sinf (2 * pi0 * t * f * 1000000000000))
      let result := (List.zipWith (fun c f => (row f).map (fun x => c * x)) ss fs).foldl
        vadd ((row f0).map (fun x => s0 * x))
      some ((result.map (fun x => x / amax result)).map (fun x => |x|))
  | _, _ => none

end SPHamasaki2

/-! General lemmas about the list helpers. -/

theorem foldl_max_mem (xs : List ℚ) (x : ℚ) : xs.foldl max x ∈ x :: xs := by
  induction xs generalizing x with
  | nil => simp
  | cons y ys ih =>
    rw [List.foldl_cons]
    rcases List.mem_cons.mp (ih (max x y)) with h | h
    · rcases max_choice x y with hc | hc <;> rw [h, hc]
      · exact List.mem_cons_self _ _
      · exact List.mem_cons_of_mem _ (List.mem_cons_self _ _)
    · exact List.mem_cons_of_mem _ (List.mem_cons_of_mem _ h)

theorem amax_mem {l : List ℚ} (h : l ≠ []) : amax l ∈ l := by
  cases l with
  | nil => exact absurd rfl h
  | cons x xs => exact foldl_max_mem xs x

theorem firstIdxGe_isSome {target a : ℚ} {l : List ℚ} (hmem : a ∈ l)
    (hle : target ≤ a) : ∃ k, firstIdxGe target l = some k := by
  induction l with
  | nil => cases hmem
  | cons v rest ih =>
    by_cases hv : target ≤ v
    · exact ⟨0, by simp [firstIdxGe, hv]⟩
    · rcases List.mem_cons.mp hmem with rfl | hmem'
      · exact absurd hle hv
      · obtain ⟨k, hk⟩ := ih hmem'
        exact ⟨k + 1, by simp [firstIdxGe, hv, hk]⟩

theorem getD_zipWith {α β γ : Type} (f : α → β → γ) (l1 : List α) (l2 : List β)
    (i : ℕ) (d1 : α) (d2 : β) (dg : γ) (h1 : i < l1.length) (h2 : i < l2.length) :
    (List.zipWith f l1 l2).getD i dg = f (l1.getD i d1) (l2.getD i d2) := by
  induction l1 generalizing l2 i with
  | nil => simp at h1
  | cons x xs ih =>
    cases l2 with
    | nil => simp at h2
    | cons y ys =>
      cases i with
      | zero => simp [List.getD]
      | succ j =>
        simp only [List.zipWith_cons_cons, List.getD_cons_succ]
        exact ih ys j (Nat.lt_of_succ_lt_succ h1) (Nat.lt_of_succ_lt_succ h2)

theorem getD_map_of_lt {α β : Type} (f : α → β) (l : List α) (i : ℕ)
    (d : α) (dg : β) (h : i < l.length) :
    (l.map f).getD i dg = f (l.getD i d) := by
  induction l generalizing i with
  | nil => simp at h
  | cons x xs ih =>
    cases i with
    | zero => simp [List.getD]
    | succ j =>
      simp only [List.map_cons, List.getD_cons_succ]
      exact ih j (Nat.lt_of_succ_lt_succ h)

theorem linspace_length (a b : ℚ) (num : ℕ) : (linspace a b num).length = num := by
  unfold linspace
  by_cases h0 : num = 0
  · simp [h0]
  · by_cases h1 : num = 1
    · simp [h0, h1]
    · rw [if_neg h0, if_neg h1, List.length_map, List.length_range]

theorem mem_linspace_last (a b : ℚ) {num : ℕ} (h : 2 ≤ num) :
    b ∈ linspace a b num := by
  have h0 : num ≠ 0 := by omega
  have h1 : num ≠ 1 := by omega
  unfold linspace
  rw [if_neg h0, if_neg h1]
  apply List.mem_map.mpr
  refine ⟨num - 1, List.mem_range.mpr ?_, ?_⟩
  · omega
  · have hnz : ((num - 1 : ℕ) : ℚ) ≠ 0 := by
      exact_mod_cast (by omega : (num - 1 : ℕ) ≠ 0)
    rw [mul_div_assoc, div_self hnz, mul_one]
    ring

theorem vadd_length (v w : List ℚ) : (vadd v w).length = min v.length w.length := by
  simp [vadd]

theorem vadd_replicate_zero (v : List ℚ) (n : ℕ) (h : v.length = n) :
    vadd (List.replicate n 0) v = v := by
  induction v generalizing n with
  | nil => subst h; rfl
  | cons x xs ih =>
    subst h
    simp only [List.length_cons, List.replicate_succ, vadd, List.zipWith_cons_cons, zero_add]
    exact congrArg (x :: ·) (ih xs.length rfl)

theorem foldl_vadd_length (rows : List (List ℚ)) (init : List ℚ)
    (h : ∀ r ∈ rows, init.length ≤ r.length) :
    (rows.foldl vadd init).length = init.length := by
  induction rows generalizing init with
  | nil => rfl
  | cons r rest ih =>
    have h1 : (vadd init r).length = init.length := by
      rw [vadd_length]
      exact Nat.min_eq_left (h r (List.mem_cons_self r rest))
    rw [List.foldl_cons, ih (vadd init r) (fun r' hr' => h1 ▸ h r' (List.mem_cons_of_mem r hr'))]
    exact h1

/-! Lemmas about the Engine B pipeline state. -/

namespace SPHamasaki

theorem generate_ascan_fst_of_some (rs : List ℚ → List ℚ) (e : HEngine)
    (v itf r : List ℚ) (h : e.ref = some v) :
    (generate_ascan rs e itf r).1 = e := by
  simp [generate_ascan, h]

theorem generate_ascan_snd_of_some (rs : List ℚ → List ℚ) (e : HEngine)
    (v itf r : List ℚ) (h : e.ref = some v) :
    (generate_ascan rs e itf r).2 =
      apply_inverse_ft e (remove_background v (rs itf)) := by
  simp [generate_ascan, h]

theorem generate_ascan_fst_of_none (rs : List ℚ → List ℚ) (e : HEngine)
    (itf r : List ℚ) (h : e.ref = none) :
    (generate_ascan rs e itf r).1 = set_reference rs e r := by
  simp [generate_ascan, h]

theorem generate_ascan_agree (rs : List ℚ → List ℚ) (e : HEngine)
    (itf0 r0 itf r : List ℚ)
    (hr : e.ref = none → r0 = r) :
    (generate_ascan rs ((generate_ascan rs e itf0 r0).1) itf r).2 =
      (generate_ascan rs e itf r).2 := by
  cases h : e.ref with
  | none => rw [hr h] at *; simp [generate_ascan, set_reference, h]
  | some v => simp [generate_ascan, h]

theorem zipWith_scale_length (spectra : List ℚ) (ds : List (List ℚ)) (n : ℕ)
    (h : ∀ row ∈ ds, row.length = n) :
    ∀ r ∈ List.zipWith (fun c row => row.map (fun x => c * x)) spectra ds,
      r.length = n := by
  induction spectra generalizing ds with
  | nil => intro r hr; simp at hr
  | cons c cs ih =>
    cases ds with
    | nil => intro r hr; simp at hr
    | cons row rows =>
      intro r hr
      rcases List.mem_cons.mp hr with rfl | hr'
      · rw [List.length_map]; exact h row (List.mem_cons_self _ _)
      · exact ih rows (fun row' h' => h row' (List.mem_cons_of_mem _ h')) r hr'

theorem rawSum_length (e : HEngine) (spectra : List ℚ)
    (hrow : ∀ row ∈ e.freqDataset, row.length = e.res) :
    (rawSum e spectra).length = e.res := by
  unfold rawSum
  rw [foldl_vadd_length]
  · exact List.length_replicate _ _
  · intro r hr
    rw [List.length_replicate,
      zipWith_scale_length spectra e.freqDataset e.res hrow r hr]

theorem rawSum_cons (e : HEngine) (s0 : ℚ) (ss : List ℚ) (r0 : List ℚ)
    (rows : List (List ℚ)) (he : e.freqDataset = r0 :: rows)
    (hr0 : r0.length = e.res) :
    rawSum e (s0 :: ss) =
      (List.zipWith (fun c row => row.map (fun x => c * x)) ss rows).foldl vadd
        (r0.map (fun x => s0 * x)) := by
  unfold rawSum
  rw [he, List.zipWith_cons_cons, List.foldl_cons,
    vadd_replicate_zero (r0.map (fun x => s0 * x)) e.res
      (by rw [List.length_map]; exact hr0)]

theorem apply_inverse_ft_length (e : HEngine) (spectra : List ℚ)
    (hrow : ∀ row ∈ e.freqDataset, row.length = e.res) :
    (apply_inverse_ft e spectra).length = e.res := by
  unfold apply_inverse_ft
  rw [List.length_map, List.length_map]
  exact rawSum_length e spectra hrow

theorem generate_ascan_snd_length (rs : List ℚ → List ℚ) (e : HEngine)
    (itf r : List ℚ)
    (hrow : ∀ row ∈ e.freqDataset, row.length = e.res) :
    (generate_ascan rs e itf r).2.length = e.res := by
  cases h : e.ref with
  | none =>
    simp only [generate_ascan, h, Option.isNone_none, if_true]
    exact apply_inverse_ft_length _ _ hrow
  | some v =>
    simp only [generate_ascan, h, Option.isNone_some, Bool.false_eq_true, if_false]
    exact apply_inverse_ft_length _ _ hrow

theorem generate_bscan_snd (rs : List ℚ → List ℚ) (e : HEngine)
    (itfs : List (List ℚ)) (r : List ℚ) :
    (generate_bscan rs e itfs r).2 =
      itfs.map (fun itf => (generate_ascan rs e itf r).2) := by
  induction itfs generalizing e with
  | nil => rfl
  | cons itf rest ih =>
    show (generate_ascan rs e itf r).2 ::
        (generate_bscan rs ((generate_ascan rs e itf r).1) rest r).2 =
      (itf :: rest).map (fun itf' => (generate_ascan rs e itf' r).2)
    rw [List.map_cons]
    refine congrArg _ ?_
    rw [ih ((generate_ascan rs e itf r).1)]
    exact List.map_congr_left fun itf' _ =>
      generate_ascan_agree rs e itf r itf' r (fun _ => rfl)

theorem run_ascans_of_some (rs : List ℚ → List ℚ) (e : HEngine) (v : List ℚ)
    (h : e.ref = some v) (calls : List (List ℚ × List ℚ)) :
    (run_ascans rs e calls).1 = e ∧
    (run_ascans rs e calls).2 =
      calls.map (fun c => apply_inverse_ft e (remove_background v (rs c.1))) := by
  induction calls with
  | nil => exact ⟨rfl, rfl⟩
  | cons c rest ih =>
    have h1 : (generate_ascan rs e c.1 c.2).1 = e :=
      generate_ascan_fst_of_some rs e v c.1 c.2 h
    have h2 : (generate_ascan rs e c.1 c.2).2 =
        apply_inverse_ft e (remove_background v (rs c.1)) :=
      generate_ascan_snd_of_some rs e v c.1 c.2 h
    constructor
    · show (run_ascans rs ((generate_ascan rs e c.1 c.2).1) rest).1 = e
      rw [h1]; exact ih.1
    · show (generate_ascan rs e c.1 c.2).2 ::
        (run_ascans rs ((generate_ascan rs e c.1 c.2).1) rest).2 = _
      rw [h1, h2, List.map_cons, ih.2]

end SPHamasaki

/-! Claim theorems. -/

/-- Claim C5: given a cached reference, Engine B's `remove_background` returns
exactly `sp - reference * (max(sp)/max(reference))` elementwise, while
Engine A's `remove_background` returns the plain difference
`sp - reference_fixed` with no energy-matching rescaling. -/
theorem remove_background_formulas (ref refFix sp : List ℚ) (i : ℕ)
    (h1 : i < sp.length) (h2 : i < ref.length) (h3 : i < refFix.length) :
    (SPHamasaki.remove_background ref sp).getD i 0 =
      sp.getD i 0 - ref.getD i 0 * (amax sp / amax ref) ∧
    (SignalProcessor.remove_background refFix sp).getD i 0 =
      sp.getD i 0 - refFix.getD i 0 := by
  constructor
  · exact getD_zipWith _ sp ref i 0 0 0 h1 h2
  · exact getD_zipWith _ sp refFix i 0 0 0 h1 h3

theorem remove_background_formulas_wit :
    (0 : ℕ) < 2 ∧
    ((SPHamasaki.remove_background [2, 1] [13/2, 11]).getD 0 0 =
        ([13/2, 11] : List ℚ).getD 0 0 -
          ([2, 1] : List ℚ).getD 0 0 * (amax [13/2, 11] / amax [2, 1]) ∧
      (SignalProcessor.remove_background [1, 1] [13/2, 11]).getD 0 0 =
        ([13/2, 11] : List ℚ).getD 0 0 - ([1, 1] : List ℚ).getD 0 0) :=
  ⟨by decide, remove_background_formulas [2, 1] [1, 1] [13/2, 11] 0
    (by decide) (by decide) (by decide)⟩

/-- Claim C6: the cached reference spectrum is single-assignment under
`generate_ascan`: over any sequence of `generate_ascan` calls on one engine
instance starting uncalibrated (with no intervening explicit `set_reference`),
only the first call's reference argument is resampled and cached, the cached
reference is still that value after the whole run, and the outputs do not
change if the reference arguments of all later calls are replaced
arbitrarily (only the interference components matter). -/
theorem reference_single_assignment (rs : List ℚ → List ℚ) (e : HEngine)
    (itf1 r1 : List ℚ) (rest rest' : List (List ℚ × List ℚ))
    (hnone : e.ref = none)
    (hsame : rest.map Prod.fst = rest'.map Prod.fst) :
    (SPHamasaki.run_ascans rs e ((itf1, r1) :: rest)).1.ref = some (rs r1) ∧
    (SPHamasaki.run_ascans rs e ((itf1, r1) :: rest)).2 =
      (SPHamasaki.run_ascans rs e ((itf1, r1) :: rest')).2 := by
  have hfst : (SPHamasaki.generate_ascan rs e itf1 r1).1 =
      SPHamasaki.set_reference rs e r1 :=
    SPHamasaki.generate_ascan_fst_of_none rs e itf1 r1 hnone
  have main : ∀ (rst : List (List ℚ × List ℚ)),
      (SPHamasaki.run_ascans rs e ((itf1, r1) :: rst)).1 =
        SPHamasaki.set_reference rs e r1 ∧
      (SPHamasaki.run_ascans rs e ((itf1, r1) :: rst)).2 =
        (SPHamasaki.generate_ascan rs e itf1 r1).2 ::
          rst.map (fun c => SPHamasaki.apply_inverse_ft (SPHamasaki.set_reference rs e r1)
            (SPHamasaki.remove_background (rs r1) (rs c.1))) := by
    intro rst
    have hrun := SPHamasaki.run_ascans_of_some rs (SPHamasaki.set_reference rs e r1)
      (rs r1) rfl rst
    constructor
    · show (SPHamasaki.run_ascans rs ((SPHamasaki.generate_ascan rs e itf1 r1).1) rst).1 = _
      rw [hfst]; exact hrun.1
    · show (SPHamasaki.generate_ascan rs e itf1 r1).2 ::
        (SPHamasaki.run_ascans rs ((SPHamasaki.generate_ascan rs e itf1 r1).1) rst).2 = _
      rw [hfst]; exact congrArg _ hrun.2
  refine ⟨by rw [(main rest).1]; rfl, ?_⟩
  rw [(main rest).2, (main rest').2]
  refine congrArg _ ?_
  have hcomp : ∀ (l : List (List ℚ × List ℚ)),
      l.map (fun c => SPHamasaki.apply_inverse_ft (SPHamasaki.set_reference rs e r1)
          (SPHamasaki.remove_background (rs r1) (rs c.1))) =
        (l.map Prod.fst).map (fun x => SPHamasaki.apply_inverse_ft
          (SPHamasaki.set_reference rs e r1)
          (SPHamasaki.remove_background (rs r1) (rs x))) := by
    intro l; rw [List.map_map]; rfl
  rw [hcomp rest, hcomp rest', hsame]

theorem reference_single_assignment_wit :
    (⟨[[0, 1]], 2, none⟩ : HEngine).ref = none ∧
    ((SPHamasaki.run_ascans (fun x => x) ⟨[[0, 1]], 2, none⟩
        [([1], [2]), ([3], [4])]).1.ref = some [2] ∧
      (SPHamasaki.run_ascans (fun x => x) ⟨[[0, 1]], 2, none⟩
        [([1], [2]), ([3], [4])]).2 =
      (SPHamasaki.run_ascans (fun x => x) ⟨[[0, 1]], 2, none⟩
        [([1], [2]), ([3], [5])]).2) :=
  ⟨rfl, reference_single_assignment (fun x => x) ⟨[[0, 1]], 2, none⟩ [1] [2]
    [([3], [4])] [([3], [5])] rfl rfl⟩

/-- Claim C7: for interference spectra run through an engine whose precomputed
sinusoid rows all have the configured depth resolution, `generate_bscan`
returns a matrix with one row per input spectrum, each row of length equal to
the depth resolution, and the i-th row equals the result of calling
`generate_ascan` on the i-th interference spectrum independently (from the
same starting state) with the same reference. -/
theorem generate_bscan_rowwise (rs : List ℚ → List ℚ) (e : HEngine)
    (itfs : List (List ℚ)) (reference : List ℚ)
    (hrow : ∀ row ∈ e.freqDataset, row.length = e.res) :
    (SPHamasaki.generate_bscan rs e itfs reference).2.length = itfs.length ∧
    ∀ i, i < itfs.length →
      (SPHamasaki.generate_bscan rs e itfs reference).2.getD i [] =
        (SPHamasaki.generate_ascan rs e (itfs.getD i []) reference).2 ∧
      ((SPHamasaki.generate_bscan rs e itfs reference).2.getD i []).length = e.res := by
  rw [SPHamasaki.generate_bscan_snd]
  refine ⟨by simp, fun i hi => ?_⟩
  rw [getD_map_of_lt (fun itf => (SPHamasaki.generate_ascan rs e itf reference).2)
    itfs i [] [] hi]
  exact ⟨rfl, SPHamasaki.generate_ascan_snd_length rs e _ reference hrow⟩

/-- Claim C2 (code bug): for mode `'xd'` with a target outside the covered
axis range (`y_max < target` or `target < 0`), `analyze_cscan` does not
return the plane at index 0 as its own error message promises
("Returned y_axis[0]"): the axis `y_axis` is assigned only in the in-range
branch, yet the selection loop over it always runs, so the call raises an
uncaught `UnboundLocalError`. -/
theorem analyze_cscan_out_of_range_crash (cscan : List (List (List ℚ)))
    (ym target : ℚ) (h : ym < target ∨ 0 > target) :
    SPHamasaki.analyze_cscan cscan target "xd" (some ym) none =
      Except.error "UnboundLocalError: y_axis referenced before assignment" := by
  unfold SPHamasaki.analyze_cscan
  rw [if_pos (Or.inl rfl : ("xd" : String) = "xd" ∨ ("xd" : String) = "yd")]
  exact if_pos h

theorem analyze_cscan_out_of_range_crash_wit :
    ((5 : ℚ) < 10 ∨ (0 : ℚ) > 10) ∧
    SPHamasaki.analyze_cscan [[[1]]] 10 "xd" (some 5) none =
      Except.error "UnboundLocalError: y_axis referenced before assignment" :=
  ⟨Or.inl (by norm_num),
    analyze_cscan_out_of_range_crash [[[1]]] 5 10 (Or.inl (by norm_num))⟩

/-- Claim C4: `calculate_absorbance` returns, elementwise,
`-log10(reflection/incidence)` (computed as `log10(reflection/incidence) * (-1)`),
with every resulting infinite element replaced by NaN ("undefined") and never
left as infinity; in particular for `incidence = [1, 0, 1]` and
`reflection = [1, 1, 1]` it returns `[0, nan, 0]` (given that the modelled
`log10` sends 1 to 0, as the real one does). -/
theorem calculate_absorbance_inf_handling (lg : ℚ → ℚ)
    (reflection incidence : List FVal) (hlg : lg 1 = 0) :
    (∀ v ∈ calculate_absorbance lg reflection incidence, FVal.isinf v = false) ∧
    (∀ i, i < reflection.length → i < incidence.length →
      (calculate_absorbance lg reflection incidence).getD i FVal.nan =
        (if (FVal.fmul (FVal.flog10 lg (FVal.fdiv (reflection.getD i FVal.nan)
              (incidence.getD i FVal.nan))) (FVal.fin (-1))).isinf then FVal.nan
          else FVal.fmul (FVal.flog10 lg (FVal.fdiv (reflection.getD i FVal.nan)
            (incidence.getD i FVal.nan))) (FVal.fin (-1)))) ∧
    calculate_absorbance lg [FVal.fin 1, FVal.fin 1, FVal.fin 1]
      [FVal.fin 1, FVal.fin 0, FVal.fin 1] = [FVal.fin 0, FVal.nan, FVal.fin 0] := by
  refine ⟨?_, ?_, ?_⟩
  · intro v hv
    simp only [calculate_absorbance] at hv
    rcases List.mem_map.mp hv with ⟨a, _, rfl⟩
    cases hb : a.isinf with
    | true => rfl
    | false => exact hb
  · intro i h1 h2
    have hz : i < (List.zipWith
        (fun r j => FVal.fmul (FVal.flog10 lg (FVal.fdiv r j)) (FVal.fin (-1)))
        reflection incidence).length := by
      rw [List.length_zipWith]; exact lt_min h1 h2
    simp only [calculate_absorbance]
    rw [getD_map_of_lt _ _ i FVal.nan FVal.nan hz,
      getD_zipWith _ reflection incidence i FVal.nan FVal.nan FVal.nan h1 h2]
  · norm_num [calculate_absorbance, FVal.fdiv, FVal.flog10, FVal.fmul, FVal.isinf, hlg]

theorem calculate_absorbance_inf_handling_wit :
    (fun (_ : ℚ) => (0 : ℚ)) 1 = 0 ∧
    calculate_absorbance (fun _ => 0) [FVal.fin 1, FVal.fin 1, FVal.fin 1]
      [FVal.fin 1, FVal.fin 0, FVal.fin 1] = [FVal.fin 0, FVal.nan, FVal.fin 0] :=
  ⟨rfl, (calculate_absorbance_inf_handling (fun _ => 0)
    [FVal.fin 1, FVal.fin 1, FVal.fin 1] [FVal.fin 1, FVal.fin 0, FVal.fin 1] rfl).2.2⟩

/-- Claim C9 (code bug): the module-level `calculate_absorbance_2d` does
return one `calculate_absorbance` row per reflection row sharing the single
incidence spectrum, but the METHOD
`SignalProcessorHamasaki.calculate_absorbance_2d` never succeeds on a
non-empty collection: it invokes `self.calculate_absorbance(reflection[i])`
without the required positional `incidence` argument, raising `TypeError`
on the first iteration. -/
theorem calculate_absorbance_2d_rowwise_bug (lg : ℚ → ℚ)
    (refl : List (List FVal)) (inc : List FVal) (i : ℕ) (hi : i < refl.length) :
    ((calculate_absorbance_2d lg refl inc).length = refl.length ∧
      (calculate_absorbance_2d lg refl inc).getD i [] =
        calculate_absorbance lg (refl.getD i []) inc) ∧
    ∀ row rows, refl = row :: rows →
      method_calculate_absorbance_2d (some inc) refl =
        Except.error "TypeError: calculate_absorbance() missing 1 required positional argument" := by
  refine ⟨⟨by simp [calculate_absorbance_2d], ?_⟩, ?_⟩
  · exact getD_map_of_lt _ refl i [] [] hi
  · intro row rows h
    subst h
    rfl

theorem calculate_absorbance_2d_rowwise_bug_wit :
    (0 : ℕ) < 1 ∧
    ((calculate_absorbance_2d (fun _ => 0) [[FVal.fin 1]] [FVal.fin 1]).getD 0 [] =
      calculate_absorbance (fun _ => 0) [FVal.fin 1] [FVal.fin 1]) ∧
    method_calculate_absorbance_2d (some [FVal.fin 1]) [[FVal.fin 1]] =
      Except.error "TypeError: calculate_absorbance() missing 1 required positional argument" :=
  ⟨by decide,
    ((calculate_absorbance_2d_rowwise_bug (fun _ => 0) [[FVal.fin 1]] [FVal.fin 1]
      0 (by decide)).1).2,
    (calculate_absorbance_2d_rowwise_bug (fun _ => 0) [[FVal.fin 1]] [FVal.fin 1]
      0 (by decide)).2 [FVal.fin 1] [] rfl⟩

/-- Claim C8: `analyze_cscan` selects the slicing index by the
nearest-ceiling rule — it scans the relevant axis (the uniform sequence from
0 to `y_max` for modes `'xd'`/`'yd'`, the supplied depth axis for mode
`'xy'`) and picks the first index whose value is `≥ target`; in particular
for depth axis `[0, 1, 2, 3]` and `target = 3/2` it selects index 2, not
index 1.  (The in-range hypotheses keep the out-of-range branch, settled
separately, out of play; the length bounds make the generated axis reach
`y_max`.) -/
theorem analyze_cscan_nearest_ceiling (cscan : List (List (List ℚ)))
    (target ym : ℚ) (d : List ℚ)
    (hd : d ≠ []) (hdt : target ≤ amax d)
    (h0 : 0 ≤ target) (hym : target ≤ ym)
    (hx : 2 ≤ cscan.length) (hy : 2 ≤ (cscan.headD []).length) :
    (∃ k, firstIdxGe target d = some k ∧
      SPHamasaki.analyze_cscan cscan target "xy" none (some d) =
        Except.ok (some (SPHamasaki.xyPlane cscan k))) ∧
    (∃ k, firstIdxGe target (linspace 0 ym cscan.length) = some k ∧
      SPHamasaki.analyze_cscan cscan target "xd" (some ym) none =
        Except.ok (some (cscan.getD k []))) ∧
    (∃ k, firstIdxGe target (linspace 0 ym (cscan.headD []).length) = some k ∧
      SPHamasaki.analyze_cscan cscan target "yd" (some ym) none =
        Except.ok (some (cscan.map (fun b => b.getD k [])))) ∧
    firstIdxGe (3/2 : ℚ) [0, 1, 2, 3] = some 2 := by
  have hin : ¬(ym < target ∨ 0 > target) :=
    not_or.mpr ⟨not_lt.mpr hym, not_lt.mpr h0⟩
  refine ⟨?_, ?_, ?_, ?_⟩
  · obtain ⟨k, hk⟩ := firstIdxGe_isSome (amax_mem hd) hdt
    refine ⟨k, hk, ?_⟩
    have step : SPHamasaki.analyze_cscan cscan target "xy" none (some d) =
        (match firstIdxGe target d with
          | some index => Except.ok (some (SPHamasaki.xyPlane cscan index))
          | none =>
            if amax d < target ∨ amin d > target then
              Except.ok (some (SPHamasaki.xyPlane cscan 0))
            else Except.error "UnboundLocalError: index referenced before assignment") := rfl
    rw [step, hk]
  · obtain ⟨k, hk⟩ := firstIdxGe_isSome (mem_linspace_last 0 ym hx) hym
    refine ⟨k, hk, ?_⟩
    have step : SPHamasaki.analyze_cscan cscan target "xd" (some ym) none =
        (if ym < target ∨ 0 > target then
          Except.error "UnboundLocalError: y_axis referenced before assignment"
        else
          match firstIdxGe target (linspace 0 ym cscan.length) with
          | none => Except.error "UnboundLocalError: index referenced before assignment"
          | some index => Except.ok (some (cscan.getD index []))) := rfl
    rw [step, if_neg hin, hk]
  · obtain ⟨k, hk⟩ := firstIdxGe_isSome (mem_linspace_last 0 ym hy) hym
    refine ⟨k, hk, ?_⟩
    have step : SPHamasaki.analyze_cscan cscan target "yd" (some ym) none =
        (if ym < target ∨ 0 > target then
          Except.error "UnboundLocalError: y_axis referenced before assignment"
        else
          match firstIdxGe target (linspace 0 ym (cscan.headD []).length) with
          | none => Except.error "UnboundLocalError: index referenced before assignment"
          | some index => Except.ok (some (cscan.map (fun b => b.getD index [])))) := rfl
    rw [step, if_neg hin, hk]
  · norm_num [firstIdxGe]

theorem analyze_cscan_nearest_ceiling_wit :
    (3/2 : ℚ) ≤ amax [0, 1, 2, 3] ∧
    firstIdxGe (3/2 : ℚ) [0, 1, 2, 3] = some 2 :=
  ⟨by norm_num [amax, max_def],
    (analyze_cscan_nearest_ceiling [[[1], [2]], [[3], [4]]] (3/2) 5 [0, 1, 2, 3]
      (by decide) (by norm_num [amax, max_def]) (by norm_num) (by norm_num)
      (by decide) (by decide)).2.2.2⟩

/-- Claim C10: the two Engine B inverse-transform implementations are
extensionally equal.  For the same wavelength axis, refractive index,
maximum depth and signal length, with the resolution of
`signal_processing_hamasaki.py`'s engine set to 200 (the fixed depth sample
count of `signal_processor.py`'s engine), the precomputed-basis
`apply_inverse_ft` and the inline-sine `apply_inverse_ft` return the same
depth profile for every spectrum whose length equals the fixed
frequency-axis length (and any model of `np.sin` and `np.pi`). -/
theorem inverse_ft_refinement (sinf : ℚ → ℚ) (pi0 n dmax sl : ℚ)
    (wl spectra : List ℚ)
    (hlen : spectra.length = sampleCount wl sl)
    (hpos : 0 < sampleCount wl sl) :
    SPHamasaki2.apply_inverse_ft sinf pi0 (timeAxis n dmax 200)
        (freqFixedAxis wl sl) spectra =
      some (SPHamasaki.apply_inverse_ft
        (SPHamasaki.mkEngine sinf pi0 wl n dmax 200 sl) spectra) := by
  have hf : (freqFixedAxis wl sl).length = sampleCount wl sl := by
    unfold freqFixedAxis; exact linspace_length _ _ _
  have htlen : (timeAxis n dmax 200).length = 200 := by
    unfold timeAxis depthAxis; rw [List.length_map]; exact linspace_length _ _ _
  obtain ⟨f0, fs, hF⟩ : ∃ f0 fs, freqFixedAxis wl sl = f0 :: fs := by
    cases hFF : freqFixedAxis wl sl with
    | nil => rw [hFF] at hf; simp at hf; omega
    | cons a b => exact ⟨a, b, rfl⟩
  obtain ⟨s0, ss, hS⟩ : ∃ s0 ss, spectra = s0 :: ss := by
    cases hSS : spectra with
    | nil => rw [hSS] at hlen; simp at hlen; omega
    | cons a b => exact ⟨a, b, rfl⟩
  have hss : ss.length = fs.length := by
    have h1 := hlen
    rw [hS] at h1; rw [hF] at hf
    simp at h1 hf
    omega
  have hds : (SPHamasaki.mkEngine sinf pi0 wl n dmax 200 sl).freqDataset =
      ((timeAxis n dmax 200).map
          (fun t => sinf (2 * pi0 * t * f0 * 1000000000000))) ::
        fs.map (fun f => (timeAxis n dmax 200).map
          (fun t => sinf (2 * pi0 * t * f * 1000000000000))) := by
    show SPHamasaki.prepare_sinusoid sinf pi0 (timeAxis n dmax 200)
      (freqFixedAxis wl sl) = _
    rw [hF]
    rfl
  have hraw := SPHamasaki.rawSum_cons
    (SPHamasaki.mkEngine sinf pi0 wl n dmax 200 sl) s0 ss _ _ hds
    (by rw [List.length_map]; exact htlen)
  rw [hS, hF]
  simp only [SPHamasaki2.apply_inverse_ft]
  rw [if_neg (by omega : ¬(ss.length < fs.length))]
  refine congrArg some ?_
  simp only [SPHamasaki.apply_inverse_ft]
  rw [hraw, List.zipWith_map_right]

theorem inverse_ft_refinement_wit :
    ([1] : List ℚ).length = sampleCount [1] 1 ∧
    SPHamasaki2.apply_inverse_ft (fun _ => 1) 3 (timeAxis 1 0 200)
        (freqFixedAxis [1] 1) [1] =
      some (SPHamasaki.apply_inverse_ft
        (SPHamasaki.mkEngine (fun _ => 1) 3 [1] 1 0 200 1) [1]) :=
  ⟨by norm_num [sampleCount],
    inverse_ft_refinement (fun _ => 1) 3 1 0 1 [1] [1]
      (by norm_num [sampleCount]) (by norm_num [sampleCount])⟩

/-- Claim C1 (counterexample): the claimed bound `0 ≤ v ≤ 1` on every depth
sample of a generated A-scan fails for Engine B.  With the precomputed
sinusoid rows `[sin 0, sin θ, sin 2θ]` for `(sin θ, cos θ) = (4/5, 3/5)`
resp. `(4/5, -3/5)` (exact sine values on a 3-4-5 triangle, all within the
sine range), a resampler producing `[2, 1]` for the reference and
`[13/2, 11]` for the interference spectrum, `generate_ascan` outputs
`[0, 1, 12]`: dividing by the signed maximum `4/5` and then taking the
absolute value sends the negative excursion `-48/5` to `12 > 1`. -/
theorem ascan_normalization_cx :
    ((SPHamasaki.generate_ascan (fun x => if x = [0] then [2, 1] else [13/2, 11])
        ⟨[[0, 4/5, 24/25], [0, 4/5, -24/25]], 3, none⟩ [1] [0]).2.getD 2 0 = 12) ∧
    ¬((SPHamasaki.generate_ascan (fun x => if x = [0] then [2, 1] else [13/2, 11])
        ⟨[[0, 4/5, 24/25], [0, 4/5, -24/25]], 3, none⟩ [1] [0]).2.getD 2 0 ≤ 1) := by
  constructor <;>
    norm_num [SPHamasaki.generate_ascan, SPHamasaki.set_reference,
      SPHamasaki.remove_background, SPHamasaki.apply_inverse_ft, SPHamasaki.rawSum,
      vadd, amax, max_def, List.zipWith, List.foldl, List.getD]

/-- Claim C1 (amended): for Engine B, every depth sample of
`apply_inverse_ft` (hence of every generated A-scan) is nonnegative, and as
long as the signed sine-sum has a positive maximum (the non-degenerate case)
at least one sample equals 1 exactly — the sample at the position of the
maximum used for normalization.  The claimed upper bound `v ≤ 1` does not
hold (the normalization divides by the signed maximum, not the maximum
absolute value), and Engine A's `apply_ifft` performs no max-normalization
at all. -/
theorem ascan_normalization_amended (e : HEngine) (spectra : List ℚ)
    (hpos : 0 < amax (SPHamasaki.rawSum e spectra)) :
    (∀ v ∈ SPHamasaki.apply_inverse_ft e spectra, 0 ≤ v) ∧
    (1 : ℚ) ∈ SPHamasaki.apply_inverse_ft e spectra := by
  constructor
  · intro v hv
    simp only [SPHamasaki.apply_inverse_ft] at hv
    rcases List.mem_map.mp hv with ⟨u, _, rfl⟩
    exact abs_nonneg u
  · have hne : SPHamasaki.rawSum e spectra ≠ [] := by
      intro h
      rw [h] at hpos
      simp [amax] at hpos
    have hmem : amax (SPHamasaki.rawSum e spectra) ∈ SPHamasaki.rawSum e spectra :=
      amax_mem hne
    simp only [SPHamasaki.apply_inverse_ft]
    refine List.mem_map.mpr
      ⟨amax (SPHamasaki.rawSum e spectra) / amax (SPHamasaki.rawSum e spectra),
        List.mem_map.mpr ⟨amax (SPHamasaki.rawSum e spectra), hmem, rfl⟩, ?_⟩
    rw [div_self (ne_of_gt hpos), abs_one]

theorem ascan_normalization_amended_wit :
    0 < amax (SPHamasaki.rawSum ⟨[[0, 4/5, 24/25]], 3, none⟩ [5]) ∧
    ((∀ v ∈ SPHamasaki.apply_inverse_ft ⟨[[0, 4/5, 24/25]], 3, none⟩ [5], 0 ≤ v) ∧
      (1 : ℚ) ∈ SPHamasaki.apply_inverse_ft ⟨[[0, 4/5, 24/25]], 3, none⟩ [5]) :=
  ⟨by norm_num [SPHamasaki.rawSum, vadd, amax, max_def, List.zipWith, List.foldl],
    ascan_normalization_amended ⟨[[0, 4/5, 24/25]], 3, none⟩ [5]
      (by norm_num [SPHamasaki.rawSum, vadd, amax, max_def, List.zipWith, List.foldl])⟩

/-- Claim C3 (counterexample): with a cached reference whose peak is zero
(`[0, -1]`) and a spectrum `[1, 2]`, Engine B's `remove_background` computes
`2/0 = +inf` and returns `[nan, +inf]`: the infinite element at index 1 is
NOT converted to an explicit undefined marker — it is propagated unchanged,
refuting the claim that every resulting infinite element is converted. -/
theorem remove_background_zero_peak_cx :
    SPHamasaki.remove_backgroundF [FVal.fin 0, FVal.fin (-1)] [FVal.fin 1, FVal.fin 2] =
      [FVal.nan, FVal.inf] ∧
    FVal.isinf ((SPHamasaki.remove_backgroundF [FVal.fin 0, FVal.fin (-1)]
      [FVal.fin 1, FVal.fin 2]).getD 1 FVal.nan) = true := by
  decide

/-- Claim C3 (amended): `remove_background` performs no conversion of
infinite or undefined values in either engine.  When the cached reference's
peak is exactly zero and the spectrum's peak is positive, the division by
zero produces `+inf`, and at every position holding a finite spectrum value
over a negative reference value the output element is infinite — propagated
as infinity into the subsequent max-normalization of the inverse transform
rather than surfaced as an explicit undefined marker (only the
absorbance/reflectance helpers perform the infinity-to-NaN replacement). -/
theorem remove_background_zero_peak_amended (ref sp : List FVal) (i : ℕ) (c r q : ℚ)
    (hi : i < sp.length) (hilen : i < ref.length)
    (h0 : famax ref = FVal.fin 0) (hc : famax sp = FVal.fin c) (hcpos : 0 < c)
    (hr : ref.getD i FVal.nan = FVal.fin r) (hrneg : r < 0)
    (hq : sp.getD i FVal.nan = FVal.fin q) :
    FVal.isinf ((SPHamasaki.remove_backgroundF ref sp).getD i FVal.nan) = true := by
  simp only [SPHamasaki.remove_backgroundF]
  rw [getD_zipWith _ sp ref i FVal.nan FVal.nan FVal.nan hi hilen, h0, hc, hr, hq]
  have hnot : ¬(0 < r) := not_lt.mpr (le_of_lt hrneg)
  simp [FVal.fdiv, FVal.fmul, FVal.fsub, FVal.isinf, hcpos, hrneg, hnot]

theorem remove_background_zero_peak_amended_wit :
    famax [FVal.fin 0, FVal.fin (-1)] = FVal.fin 0 ∧
    FVal.isinf ((SPHamasaki.remove_backgroundF [FVal.fin 0, FVal.fin (-1)]
      [FVal.fin 3, FVal.fin 4]).getD 1 FVal.nan) = true :=
  ⟨by decide, remove_background_zero_peak_amended [FVal.fin 0, FVal.fin (-1)]
    [FVal.fin 3, FVal.fin 4] 1 4 (-1) 4 (by decide) (by decide) (by decide)
    (by decide) (by decide) (by decide) (by decide) (by decide)⟩

theorem generate_bscan_rowwise_wit :
    (1 : ℕ) < 2 ∧
    ((SPHamasaki.generate_bscan (fun x => [x.headD 0, 1]) ⟨[[0, 1], [0, 1]], 2, none⟩
        [[1], [2]] [3]).2.getD 1 [] =
      (SPHamasaki.generate_ascan (fun x => [x.headD 0, 1]) ⟨[[0, 1], [0, 1]], 2, none⟩
        [2] [3]).2 ∧
      ((SPHamasaki.generate_bscan (fun x => [x.headD 0, 1]) ⟨[[0, 1], [0, 1]], 2, none⟩
        [[1], [2]] [3]).2.getD 1 []).length = 2) :=
  ⟨by decide, (generate_bscan_rowwise (fun x => [x.headD 0, 1])
    ⟨[[0, 1], [0, 1]], 2, none⟩ [[1], [2]] [3] (by decide)).2 1 (by decide)⟩

end OCT
